import Mathlib

/-
Verification development for the LegalDocumentAnalyzer repository.

The repository ships the React frontend (document upload, dashboard, and the
document-analysis views) together with the specification of the backend
analysis pipeline; the backend implementation itself is not part of the
source tree (backend/ holds only requirements.txt).  Frontend functions are
embedded directly from the TypeScript/JavaScript sources; the pipeline
(orchestrator, clause detector, risk scorer, entity extractor, statistics
computer, summarizer) is modelled from the spec, as noted on each
definition.
-/

namespace LDA

/-- Severity levels of a risk factor, spec section 3: severity ∈ {low, medium, high}. -/
inductive Severity where
  | low
  | medium
  | high
  deriving DecidableEq

/-- The five entity categories, spec section 3:
category ∈ {organization, person, date, money, location}. -/
inductive Category where
  | organization
  | person
  | date
  | money
  | location
  deriving DecidableEq

/-- Modelled from the spec: the `entities` aggregate of the produced Analysis,
spec section 6, with its five stable list fields. -/
structure Entities where
  organizations : List String
  people : List String
  dates : List String
  money : List String
  locations : List String
  deriving DecidableEq

/-- Modelled from the spec: a detected clause, spec sections 3 and 6:
{type, content (source span), confidence}. -/
structure Clause where
  type : String
  content : String
  confidence : ℚ
  deriving DecidableEq

/-- Modelled from the spec: a risk factor as it appears in the produced
Analysis, spec section 6: {type, description, severity, pattern_matched}. -/
structure RiskFactor where
  type : String
  description : String
  severity : Severity
  pattern_matched : String
  deriving DecidableEq

/-- Modelled from the spec: readability statistics, spec sections 3 and 6. -/
structure Statistics where
  word_count : ℕ
  sentence_count : ℕ
  reading_level : ℚ
  reading_time : ℚ
  deriving DecidableEq

/-- Modelled from the spec: sentiment, spec sections 3 and 6:
{polarity, subjectivity}. -/
structure Sentiment where
  polarity : ℚ
  subjectivity : ℚ
  deriving DecidableEq

/-- Modelled from the spec: the produced `Analysis` record, spec section 6 —
the stable output schema consumed downstream. -/
structure Analysis where
  summary : String
  entities : Entities
  key_clauses : List Clause
  risk_factors : List RiskFactor
  statistics : Statistics
  sentiment : Sentiment
  overall_risk_score : ℚ
  deriving DecidableEq

/-- Document status, spec section 3: status ∈ {pending, processing, completed, failed}. -/
inductive Status where
  | pending
  | processing
  | completed
  | failed
  deriving DecidableEq

/-- The string surfaced to callers for each status, spec section 6. -/
def statusString : Status → String
  | Status.pending => "pending"
  | Status.processing => "processing"
  | Status.completed => "completed"
  | Status.failed => "failed"

/-- Empty entity lists: the default contribution of a failed entity stage. -/
def emptyEntities : Entities :=
  { organizations := [], people := [], dates := [], money := [], locations := [] }

/-- Zero statistics: the default contribution of a failed statistics stage. -/
def zeroStatistics : Statistics :=
  { word_count := 0, sentence_count := 0, reading_level := 0, reading_time := 0 }

/-- Neutral sentiment: the default contribution of a failed sentiment analysis. -/
def neutralSentiment : Sentiment :=
  { polarity := 0, subjectivity := 0 }

/-- Modelled from the spec: fixed per-severity weights of the risk scorer,
spec section 4.4 (high = 1.0, medium = 0.5, low = 0.2). -/
def severityWeight : Severity → ℚ
  | Severity.low => 1 / 5
  | Severity.medium => 1 / 2
  | Severity.high => 1

/-- Modelled from the spec: the normalizing constant of the overall risk
score, spec section 4.4; the spec leaves its value open, the model fixes a
positive constant. -/
def normalizingConstant : ℚ := 10

/-- Modelled from the spec: the document-level overall risk score,
spec section 4.4: min(1, sum of per-severity weights / normalizing constant). -/
def overallRiskScore (rs : List RiskFactor) : ℚ :=
  min 1 ((rs.map (fun r => severityWeight r.severity)).sum / normalizingConstant)

/-- Modelled from the spec: the outcome of each non-fatal stage of one run,
spec section 4.8 — `none` models a caught stage failure whose contribution is
replaced by the stage's default. -/
structure StageOutcomes where
  entities : Option Entities
  clauses : Option (List Clause)
  risks : Option (List RiskFactor)
  statistics : Option Statistics
  sentiment : Option Sentiment
  summary : Option String

/-- Modelled from the spec: assembly of the final Analysis from the stage
outcomes, spec section 4.8 — each failed stage contributes its
empty/default value (empty list, zero statistics, neutral sentiment). -/
def assemble (st : StageOutcomes) : Analysis :=
  { summary := st.summary.getD ""
    entities := st.entities.getD emptyEntities
    key_clauses := st.clauses.getD []
    risk_factors := st.risks.getD []
    statistics := st.statistics.getD zeroStatistics
    sentiment := st.sentiment.getD neutralSentiment
    overall_risk_score := overallRiskScore (st.risks.getD []) }

/-- Result of one pipeline run: terminal failure with a recorded reason, or a
completed run with its assembled Analysis. -/
inductive RunResult where
  | failed (reason : String)
  | completed (a : Analysis)

/-- Modelled from the spec: the pipeline orchestrator, spec section 4.8.
Extraction is the only fatal stage: its failure transitions the run directly
to `failed` with the error recorded and no further stage contributes; a
successful extraction always ends in `completed` with the assembled
Analysis, whatever the other stages' outcomes. -/
def runPipeline (extraction : Except String String) (st : StageOutcomes) : RunResult :=
  match extraction with
  | Except.error e => RunResult.failed e
  | Except.ok _ => RunResult.completed (assemble st)

/-- The terminal document status written by a run, spec section 4.8. -/
def statusOf : RunResult → Status
  | RunResult.failed _ => Status.failed
  | RunResult.completed _ => Status.completed

/-- The Analysis written by a run, if any: a failed run writes none. -/
def analysisOf : RunResult → Option Analysis
  | RunResult.failed _ => none
  | RunResult.completed a => some a

/-- Splits a character list into maximal space-free words; the accumulator
holds the current word reversed. -/
def wordsAux : List Char → List Char → List (List Char)
  | [], [] => []
  | [], cur => [cur.reverse]
  | c :: cs, cur =>
      if c = ' ' then
        if cur = [] then wordsAux cs []
        else cur.reverse :: wordsAux cs []
      else wordsAux cs (c :: cur)

/-- Modelled from the spec: the preprocessor's tokenization of a span into
words, spec section 4.2. -/
def wordsOf (s : String) : List String :=
  (wordsAux s.data []).map String.mk

/-- Joins strings with a separator. -/
def joinWith (sep : String) : List String → String
  | [] => ""
  | [s] => s
  | s :: rest => s ++ sep ++ joinWith sep rest

/-- Modelled from the spec: case/whitespace normalization of an entity text,
spec section 4.5 (lowercase, collapse whitespace runs, trim). -/
def normalize (s : String) : String :=
  joinWith " " (wordsOf (String.mk (s.data.map Char.toLower)))

/-- Modelled from the spec: one registered clause-type definition, spec
sections 4.3 and 9: a data record {id, keyword pattern set, threshold}
iterated uniformly. -/
structure ClauseType where
  name : String
  keywords : List String
  threshold : ℚ
  deriving DecidableEq

/-- Modelled from the spec: the match score of a clause type on a span, spec
section 4.3 — the fraction of the type's keywords present among the span's
words, a score in [0,1]. -/
def scoreOf (t : ClauseType) (span : String) : ℚ :=
  mkRat ((t.keywords.filter (fun k => decide (k ∈ wordsOf span))).length : ℤ)
    t.keywords.length

/-- Modelled from the spec: the registered types matching a span, spec
section 4.3 — those whose score reaches their per-type threshold, in
registration order. -/
def matchesOf (registry : List ClauseType) (span : String) : List ClauseType :=
  registry.filter (fun t => decide (t.threshold ≤ scoreOf t span))

/-- Modelled from the spec: the clause detector's output for one span, spec
section 4.3 — the highest-scoring match with ties broken by earliest
registration (List.argmax keeps the first of equally-scored elements);
nothing when no type matches. -/
def detectSpan (registry : List ClauseType) (span : String) : Option Clause :=
  match (matchesOf registry span).argmax (fun t => scoreOf t span) with
  | some m => some { type := m.name, content := span, confidence := scoreOf m span }
  | none => none

/-- Modelled from the spec: the statistics computer, spec section 4.6 —
word_count = token count, sentence_count = sentence count, a sentence-length
based grade estimate (the syllable component is not constrained by any
claim), and reading_time = word_count / reading speed, unrounded. -/
def computeStatistics (tokens sentences : List String) (wpm : ℚ) : Statistics :=
  { word_count := tokens.length
    sentence_count := sentences.length
    reading_level :=
      if sentences.length = 0 then 0
      else (2 / 5) * ((tokens.length : ℚ) / (sentences.length : ℚ))
    reading_time := (tokens.length : ℚ) / wpm }

/-- Embedded from src/unnamed/part_002 line 202: the presentation boundary
displays Math.ceil of the returned reading time. -/
def displayedReadingTime (st : Statistics) : ℤ :=
  ⌈st.reading_time⌉

/-- The list of one category of an Entities record. -/
def catList (e : Entities) : Category → List String
  | Category.organization => e.organizations
  | Category.person => e.people
  | Category.date => e.dates
  | Category.money => e.money
  | Category.location => e.locations

/-- Appends a text to one category of an Entities record. -/
def addToCat (e : Entities) : Category → String → Entities
  | Category.organization, t => { e with organizations := e.organizations ++ [t] }
  | Category.person, t => { e with people := e.people ++ [t] }
  | Category.date, t => { e with dates := e.dates ++ [t] }
  | Category.money, t => { e with money := e.money ++ [t] }
  | Category.location, t => { e with locations := e.locations ++ [t] }

/-- Modelled from the spec: one step of the entity extractor, spec
section 4.5.  The first component of the state is the set of normalized
texts already emitted in this run: a text whose normalized form was already
seen is dropped (deduplication across the output), a text whose category
already holds the per-category cap is dropped (first-seen order wins). -/
def addEntity (cap : ℕ) (st : List String × Entities) (et : String × Category) :
    List String × Entities :=
  let n := normalize et.1
  if n ∈ st.1 then st
  else if cap ≤ (catList st.2 et.2).length then st
  else (n :: st.1, addToCat st.2 et.2 et.1)

/-- Modelled from the spec: the entity extractor over the label-mapped
recognizer output, spec section 4.5. -/
def extractEntities (cap : ℕ) (raw : List (String × Category)) : Entities :=
  (raw.foldl (addEntity cap) ([], emptyEntities)).2

/-- The five category lists with their members normalized. -/
def normalizedCats (e : Entities) : List (List String) :=
  [e.organizations.map normalize, e.people.map normalize, e.dates.map normalize,
    e.money.map normalize, e.locations.map normalize]

/-- Splits a character list into sentences at every period; the accumulator
holds the current sentence reversed. -/
def sentSplitAux : List Char → List Char → List (List Char)
  | [], [] => []
  | [], cur => [cur.reverse]
  | c :: cs, cur =>
      if c = '.' then cur.reverse :: sentSplitAux cs []
      else sentSplitAux cs (c :: cur)

/-- Drops leading and trailing spaces of a character list. -/
def trimSpaces (cs : List Char) : List Char :=
  ((cs.dropWhile (fun c => c == ' ')).reverse.dropWhile (fun c => c == ' ')).reverse

/-- Modelled from the spec: the preprocessor's sentence segmentation, spec
section 4.2 — period-delimited spans, trimmed, empty spans discarded. -/
def sentencesOf (s : String) : List String :=
  ((sentSplitAux s.data []).map (fun cs => String.mk (trimSpaces cs))).filter
    (fun t => decide (t ≠ ""))

/-- Modelled from the spec: document-wide term frequency of one term, spec
section 4.7. -/
def termCount (doc : List String) (t : String) : ℕ :=
  ((doc.map wordsOf).flatten).count t

/-- Modelled from the spec: term-frequency salience of a sentence, spec
section 4.7 — the sum of the document-wide frequencies of its words. -/
def salience (doc : List String) (s : String) : ℕ :=
  ((wordsOf s).map (termCount doc)).sum

/-- Modelled from the spec: the top-N sentences by salience (N = 3), spec
section 4.7. -/
def topRanked (ss : List String) : List String :=
  (ss.insertionSort (fun a b => salience ss b ≤ salience ss a)).take 3

/-- Modelled from the spec: extractive fallback summarization, spec
section 4.7 — the top-ranked sentences, emitted in original order. -/
def extractive (ss : List String) : String :=
  joinWith " " (ss.filter (fun s => decide (s ∈ topRanked ss)))

/-- Modelled from the spec: the summarizer, spec sections 4.7 and 9 — a
two-arm strategy decided once per call.  `backend = some gen` models an
available generative backend (its chunk-and-synthesize behaviour abstracted
into `gen`); `backend = none` models an unavailable or timed-out backend,
which selects the extractive fallback.  Empty input yields the empty
summary. -/
def summarize (backend : Option (String → String)) (text : String) : String :=
  match sentencesOf text with
  | [] => ""
  | ss =>
      match backend with
      | some gen => gen text
      | none => extractive ss

/-- The five category lists of an Entities record, each with its members
normalized, concatenated in schema order. -/
def allNorms (e : Entities) : List String :=
  (e.organizations ++ e.people ++ e.dates ++ e.money ++ e.locations).map normalize

/-- The invariant of the entity extractor's fold: the normalized texts
already emitted are pairwise distinct, and every one of them is recorded in
the seen set. -/
def seenInv (st : List String × Entities) : Prop :=
  (allNorms st.2).Nodup ∧ ∀ x ∈ allNorms st.2, x ∈ st.1

/-- A concrete registered clause type used to evaluate the model. -/
def demoTermination : ClauseType :=
  { name := "termination_clause", keywords := ["terminate"], threshold := mkRat 1 2 }

/-- A second concrete registered clause type used to evaluate the model. -/
def demoNotice : ClauseType :=
  { name := "notice_clause", keywords := ["notice"], threshold := mkRat 1 2 }

/-- A concrete two-type registry used to evaluate the model. -/
def demoRegistry : List ClauseType := [demoTermination, demoNotice]

/-- A concrete span matched by both demo clause types. -/
def demoSpan : String := "terminate notice"

/-- A concrete non-trivial input text used to evaluate the summarizer. -/
def demoText : String := "Agreement terminates with notice. Notice is given."

/-- The three top-level branches of the document-analysis page. -/
inductive ViewBranch where
  | inProgress
  | failedView
  | analysisView
  deriving DecidableEq

/-- Embedded from src/unnamed/part_002 (the document-analysis page, lines
156-191): the view shows the progress card while the status is processing or
pending, the failure card when it is failed, and reads analysis fields only
in the remaining branch. -/
def viewBranch (status : String) : ViewBranch :=
  if status = "processing" ∨ status = "pending" then ViewBranch.inProgress
  else if status = "failed" then ViewBranch.failedView
  else ViewBranch.analysisView

end LDA

namespace LDA.View

/-- Embedded from src/unnamed/part_002: the `Clause` interface of the
document view, fields {type, text}. -/
structure Clause where
  type : String
  text : String

/-- Embedded from src/unnamed/part_002: the `Risk` interface of the document
view, fields {category, severity, context}. -/
structure Risk where
  category : String
  severity : String
  context : String

/-- Embedded from src/unnamed/part_002: the `DocumentAnalysis` interface of
the document view. -/
structure DocumentAnalysis where
  statistics : LDA.Statistics
  summary : String
  entities : List (String × List String)
  key_clauses : List Clause
  risks : List Risk
  sentiment : LDA.Sentiment

/-- Embedded from src/unnamed/part_002: the `DocumentResponse` interface. -/
structure DocumentResponse where
  id : String
  title : String
  file_type : String
  size : ℕ
  upload_date : String
  last_modified : String
  status : String
  analysis : DocumentAnalysis
  tags : List String

/-- The value returned by a react-query refetch-interval callback: a polling
interval in milliseconds, or false (no polling). -/
inductive RefetchSetting where
  | every (ms : ℕ)
  | off
  deriving DecidableEq

/-- Embedded from src/unnamed/part_002 lines 63-70: the query's
refetch-interval callback; `none` models an undefined `data`. -/
def refetchInterval (data : Option DocumentResponse) : RefetchSetting :=
  match data with
  | some d =>
      if d.status = "processing" ∨ d.status = "pending" then RefetchSetting.every 5000
      else RefetchSetting.off
  | none => RefetchSetting.off

/-- Embedded from src/unnamed/part_001 lines 24-35 and src/unnamed/part_002
lines 96-107 (identical bodies): severity badge colors, switching on the
lowercased severity string with a gray default.  `jsToLower` below models
JavaScript's toLowerCase on the ASCII range. -/
def jsToLower (s : String) : String :=
  String.mk (s.data.map Char.toLower)

/-- Embedded from src/unnamed/part_001 lines 24-35 and src/unnamed/part_002
lines 96-107: the severity-to-color mapping of the views. -/
def getSeverityColor (severity : String) : String :=
  if jsToLower severity = "high" then "text-red-600 bg-red-100"
  else if jsToLower severity = "medium" then "text-yellow-600 bg-yellow-100"
  else if jsToLower severity = "low" then "text-green-600 bg-green-100"
  else "text-gray-600 bg-gray-100"

end LDA.View

namespace LDA

/-- C1: for every pipeline run over a document, an Analysis record is
present if and only if the document's status equals completed; a failed run
writes no Analysis, and the consumer view reads analysis fields only in the
completed branch. -/
theorem analysis_present_iff_completed (ex : Except String String)
    (st : StageOutcomes) (e : String) (s : Status) :
    ((analysisOf (runPipeline ex st)).isSome ↔
      statusOf (runPipeline ex st) = Status.completed)
    ∧ analysisOf (runPipeline (Except.error e) st) = none
    ∧ (viewBranch (statusString s) = ViewBranch.analysisView ↔
      s = Status.completed) := by
  refine ⟨?_, rfl, ?_⟩
  · cases ex <;> simp [runPipeline, analysisOf, statusOf]
  · cases s <;> decide

/-- C2: a failure of the text extractor transitions the run directly to
failed with the error recorded, independently of every other stage; a
failure of any non-fatal stage never produces a failed status — that
stage's contribution to the Analysis is replaced by its empty/default value
(empty list, zero statistics, neutral sentiment) and the pipeline completes. -/
theorem stage_failure_policy (e t : String) (st st₂ : StageOutcomes) :
    runPipeline (Except.error e) st = RunResult.failed e
    ∧ runPipeline (Except.error e) st = runPipeline (Except.error e) st₂
    ∧ statusOf (runPipeline (Except.ok t) st) = Status.completed
    ∧ (assemble { st with summary := none }).summary = ""
    ∧ (assemble { st with entities := none }).entities = emptyEntities
    ∧ (assemble { st with clauses := none }).key_clauses = []
    ∧ (assemble { st with risks := none }).risk_factors = []
    ∧ (assemble { st with statistics := none }).statistics = zeroStatistics
    ∧ (assemble { st with sentiment := none }).sentiment = neutralSentiment
    ∧ runPipeline (Except.ok t) st = RunResult.completed (assemble st) :=
  ⟨rfl, rfl, rfl, rfl, rfl, rfl, rfl, rfl, rfl, rfl⟩

/-- C5: every produced Analysis record consists of exactly the stable fields
summary, entities (with the five lists organizations, people, dates, money,
locations), key_clauses (entries {type, content, confidence}), risk_factors
(entries {type, description, severity, pattern_matched} with severity one of
low, medium, high), statistics, sentiment, and overall_risk_score. -/
theorem analysis_schema_stable (a : Analysis) (ent : Entities) (c : Clause)
    (r : RiskFactor) (s : Severity) :
    a = { summary := a.summary, entities := a.entities,
          key_clauses := a.key_clauses, risk_factors := a.risk_factors,
          statistics := a.statistics, sentiment := a.sentiment,
          overall_risk_score := a.overall_risk_score }
    ∧ ent = { organizations := ent.organizations, people := ent.people,
              dates := ent.dates, money := ent.money,
              locations := ent.locations }
    ∧ c = { type := c.type, content := c.content, confidence := c.confidence }
    ∧ r = { type := r.type, description := r.description,
            severity := r.severity, pattern_matched := r.pattern_matched }
    ∧ (s = Severity.low ∨ s = Severity.medium ∨ s = Severity.high) := by
  refine ⟨rfl, rfl, rfl, rfl, ?_⟩
  cases s
  · exact Or.inl rfl
  · exact Or.inr (Or.inl rfl)
  · exact Or.inr (Or.inr rfl)

end LDA

namespace LDA.View

/-- C9: the document-analysis query's refetch-interval callback returns 5000
milliseconds exactly when the fetched document's status is processing or
pending, and returns false (off) for every other status, so a terminal
status is never re-polled. -/
theorem refetch_only_while_active (d : DocumentResponse) :
    (refetchInterval (some d) = RefetchSetting.every 5000 ↔
      (d.status = "processing" ∨ d.status = "pending"))
    ∧ (refetchInterval (some d) = RefetchSetting.off ↔
      ¬(d.status = "processing" ∨ d.status = "pending")) := by
  by_cases h : d.status = "processing" ∨ d.status = "pending" <;>
    simp [refetchInterval, h]

/-- C10: getSeverityColor is total on strings and case-insensitive: a string
whose lowercase form is high, medium or low maps to the red, yellow or green
class string respectively, and every other string maps to the gray default. -/
theorem getSeverityColor_total (s : String) :
    (jsToLower s = "high" → getSeverityColor s = "text-red-600 bg-red-100")
    ∧ (jsToLower s = "medium" →
        getSeverityColor s = "text-yellow-600 bg-yellow-100")
    ∧ (jsToLower s = "low" → getSeverityColor s = "text-green-600 bg-green-100")
    ∧ (jsToLower s ≠ "high" → jsToLower s ≠ "medium" → jsToLower s ≠ "low" →
        getSeverityColor s = "text-gray-600 bg-gray-100") := by
  refine ⟨fun h => ?_, fun h => ?_, fun h => ?_, fun h1 h2 h3 => ?_⟩ <;>
    simp [getSeverityColor, *]

/-- Witness for C10: the mapping evaluated at an uppercase severity and at a
string outside the three recognized severities. -/
theorem getSeverityColor_check :
    getSeverityColor "HIGH" = "text-red-600 bg-red-100"
    ∧ getSeverityColor "unknown" = "text-gray-600 bg-gray-100" :=
  ⟨(getSeverityColor_total "HIGH").1 (by decide),
   (getSeverityColor_total "unknown").2.2.2 (by decide) (by decide) (by decide)⟩

end LDA.View

namespace LDA

/-- Each per-severity weight is nonnegative. -/
theorem severityWeight_nonneg (s : Severity) : 0 ≤ severityWeight s := by
  cases s <;> norm_num [severityWeight]

/-- The weighted sum over a match list is nonnegative. -/
theorem riskWeights_sum_nonneg (rs : List RiskFactor) :
    0 ≤ (rs.map (fun r => severityWeight r.severity)).sum := by
  refine List.sum_nonneg ?_
  intro x hx
  obtain ⟨r, _, rfl⟩ := List.mem_map.1 hx
  exact severityWeight_nonneg r.severity

/-- Appending one match never decreases the overall risk score. -/
theorem overallRiskScore_append_le (rs : List RiskFactor) (f : RiskFactor) :
    overallRiskScore rs ≤ overallRiskScore (rs ++ [f]) := by
  unfold overallRiskScore
  refine min_le_min le_rfl ?_
  rw [div_eq_mul_inv, div_eq_mul_inv]
  refine mul_le_mul_of_nonneg_right ?_ (by norm_num [normalizingConstant])
  rw [List.map_append, List.sum_append, List.map_singleton, List.sum_singleton]
  exact le_add_of_nonneg_right (severityWeight_nonneg f.severity)

/-- C4: the overall risk score equals min(1, weighted sum / normalizing
constant), lies in [0,1], and is monotonically non-decreasing under adding
matches; in particular adding a high-severity risk factor to the same input
never decreases it. -/
theorem overall_risk_score_bounds_mono (rs : List RiskFactor) (f : RiskFactor)
    (c d p : String) :
    overallRiskScore rs =
      min 1 ((rs.map (fun r => severityWeight r.severity)).sum / normalizingConstant)
    ∧ 0 ≤ overallRiskScore rs
    ∧ overallRiskScore rs ≤ 1
    ∧ overallRiskScore rs ≤ overallRiskScore (rs ++ [f])
    ∧ overallRiskScore rs ≤ overallRiskScore
        (rs ++ [{ type := c, description := d, severity := Severity.high,
                  pattern_matched := p }]) := by
  refine ⟨rfl, ?_, min_le_left _ _, overallRiskScore_append_le rs f,
    overallRiskScore_append_le rs _⟩
  exact le_min (by norm_num)
    (div_nonneg (riskWeights_sum_nonneg rs) (by norm_num [normalizingConstant]))

/-- C6: the statistics computer returns reading_time as the unrounded
quotient word_count / reading speed; the ceiling is applied only at the
presentation boundary. -/
theorem reading_time_unrounded (tokens sentences : List String) (wpm : ℚ)
    (h : wpm ≠ 0) :
    (computeStatistics tokens sentences wpm).reading_time =
      (tokens.length : ℚ) / wpm
    ∧ (computeStatistics tokens sentences wpm).reading_time * wpm =
      (tokens.length : ℚ)
    ∧ displayedReadingTime (computeStatistics tokens sentences wpm) =
      ⌈(tokens.length : ℚ) / wpm⌉ := by
  refine ⟨rfl, ?_, rfl⟩
  show (tokens.length : ℚ) / wpm * wpm = (tokens.length : ℚ)
  exact div_mul_cancel₀ _ h

/-- Witness for C6: three words at two words per minute give the unrounded
reading time 3/2, displayed as the ceiling 2. -/
theorem reading_time_unrounded_check :
    (2 : ℚ) ≠ 0
    ∧ (computeStatistics ["shall", "indemnify", "hold"] [] 2).reading_time = 3 / 2
    ∧ displayedReadingTime (computeStatistics ["shall", "indemnify", "hold"] [] 2) = 2 := by
  have h := reading_time_unrounded ["shall", "indemnify", "hold"] [] 2 (by decide)
  refine ⟨by decide, ?_, ?_⟩
  · rw [h.1]; norm_num
  · rw [h.2.2]
    rw [show ((["shall", "indemnify", "hold"] : List String).length : ℚ) = 3 by norm_num]
    rw [Int.ceil_eq_iff]
    norm_num

end LDA

namespace LDA

/-- Filtering preserves relative order: if two elements of the filtered list
come in a given order there, their first occurrences in the original list
come in the same order. -/
theorem indexOf_filter_mono {α : Type} [DecidableEq α] (p : α → Bool)
    (l : List α) : ∀ {a b : α}, a ∈ l.filter p → b ∈ l.filter p →
      (l.filter p).indexOf a ≤ (l.filter p).indexOf b →
      l.indexOf a ≤ l.indexOf b := by
  induction l with
  | nil => intro a b ha _ _; simp at ha
  | cons h t ih =>
    intro a b ha hb hle
    by_cases hp : p h = true
    · rw [List.filter_cons_of_pos hp] at ha hb hle
      by_cases hah : a = h
      · subst hah
        simp [List.indexOf_cons_self]
      · have hbh : b ≠ h := by
          intro hbe
          subst hbe
          rw [List.indexOf_cons_self, List.indexOf_cons_ne _ (Ne.symm hah)] at hle
          omega
        have ha2 : a ∈ t.filter p := by
          rcases List.mem_cons.1 ha with h1 | h1
          · exact absurd h1 hah
          · exact h1
        have hb2 : b ∈ t.filter p := by
          rcases List.mem_cons.1 hb with h1 | h1
          · exact absurd h1 hbh
          · exact h1
        rw [List.indexOf_cons_ne _ (Ne.symm hah), List.indexOf_cons_ne _ (Ne.symm hbh)] at hle
        rw [List.indexOf_cons_ne _ (Ne.symm hah), List.indexOf_cons_ne _ (Ne.symm hbh)]
        exact Nat.succ_le_succ (ih ha2 hb2 (Nat.le_of_succ_le_succ hle))
    · rw [List.filter_cons_of_neg (by simpa using hp)] at ha hb hle
      have hah : a ≠ h := by
        intro he
        subst he
        exact hp (List.mem_filter.1 ha).2
      have hbh : b ≠ h := by
        intro he
        subst he
        exact hp (List.mem_filter.1 hb).2
      rw [List.indexOf_cons_ne _ (Ne.symm hah), List.indexOf_cons_ne _ (Ne.symm hbh)]
      exact Nat.succ_le_succ (ih ha hb hle)

/-- C3: for every span, a span matching no registered type emits nothing;
a matched span emits exactly one Clause — the highest-scoring match, with
ties broken in favor of the earliest-registered clause type. -/
theorem clause_overlap_rule (registry : List ClauseType) (span : String) :
    (matchesOf registry span = [] → detectSpan registry span = none)
    ∧ ∀ t ∈ matchesOf registry span,
        ∃ m, m ∈ matchesOf registry span
          ∧ detectSpan registry span =
              some { type := m.name, content := span, confidence := scoreOf m span }
          ∧ (∀ u ∈ matchesOf registry span, scoreOf u span ≤ scoreOf m span)
          ∧ (∀ u ∈ matchesOf registry span,
              scoreOf m span ≤ scoreOf u span →
                registry.indexOf m ≤ registry.indexOf u) := by
  constructor
  · intro h
    unfold detectSpan
    rw [h]
    rfl
  · intro t ht
    have hne : matchesOf registry span ≠ [] := List.ne_nil_of_mem ht
    obtain ⟨m, hm⟩ :
        ∃ m, (matchesOf registry span).argmax (fun u => scoreOf u span) = some m := by
      cases hc : (matchesOf registry span).argmax (fun u => scoreOf u span) with
      | some m => exact ⟨m, rfl⟩
      | none => exact absurd (List.argmax_eq_none.1 hc) hne
    have hmem : m ∈ (matchesOf registry span).argmax (fun u => scoreOf u span) :=
      Option.mem_def.2 hm
    refine ⟨m, List.argmax_mem hmem, ?_, ?_, ?_⟩
    · unfold detectSpan
      rw [hm]
    · intro u hu
      exact List.le_of_mem_argmax hu hmem
    · intro u hu hle
      have h1 := List.index_of_argmax hmem hu hle
      exact indexOf_filter_mono _ registry (List.argmax_mem hmem) hu h1

/-- Witness for C3: on a span matched by both demo clause types with equal
scores, exactly the earlier-registered termination clause is emitted. -/
theorem clause_overlap_rule_check :
    detectSpan demoRegistry demoSpan =
      some { type := "termination_clause", content := demoSpan, confidence := 1 } := by
  obtain ⟨m, hm, hdet, hmax, htie⟩ :=
    (clause_overlap_rule demoRegistry demoSpan).2 demoTermination (by decide)
  have hcases : m = demoTermination ∨ m = demoNotice := by
    have he : matchesOf demoRegistry demoSpan = [demoTermination, demoNotice] := by decide
    rw [he] at hm
    simpa using hm
  rcases hcases with hm1 | hm2
  · subst hm1
    rw [hdet]
    decide
  · exfalso
    subst hm2
    have h1 := htie demoTermination (by decide) (by decide)
    revert h1
    decide

end LDA

namespace LDA

/-- Inserting a fresh element between two halves of a duplicate-free list
keeps it duplicate-free. -/
theorem nodup_insert_mid {l₁ l₂ : List String} {n : String}
    (h : (l₁ ++ l₂).Nodup) (hn : n ∉ l₁ ++ l₂) : (l₁ ++ n :: l₂).Nodup := by
  rw [List.nodup_middle]
  exact List.nodup_cons.2 ⟨hn, h⟩

/-- Appending a text to one category inserts its normalized form at one
position of the concatenated normalized output. -/
theorem allNorms_addToCat (e : Entities) (c : Category) (t : String) :
    ∃ l₁ l₂, allNorms (addToCat e c t) = l₁ ++ normalize t :: l₂
      ∧ allNorms e = l₁ ++ l₂ := by
  cases c
  · exact ⟨e.organizations.map normalize,
      (e.people ++ e.dates ++ e.money ++ e.locations).map normalize,
      by simp [allNorms, addToCat, List.map_append, List.append_assoc],
      by simp [allNorms, List.map_append, List.append_assoc]⟩
  · exact ⟨(e.organizations ++ e.people).map normalize,
      (e.dates ++ e.money ++ e.locations).map normalize,
      by simp [allNorms, addToCat, List.map_append, List.append_assoc],
      by simp [allNorms, List.map_append, List.append_assoc]⟩
  · exact ⟨(e.organizations ++ e.people ++ e.dates).map normalize,
      (e.money ++ e.locations).map normalize,
      by simp [allNorms, addToCat, List.map_append, List.append_assoc],
      by simp [allNorms, List.map_append, List.append_assoc]⟩
  · exact ⟨(e.organizations ++ e.people ++ e.dates ++ e.money).map normalize,
      e.locations.map normalize,
      by simp [allNorms, addToCat, List.map_append, List.append_assoc],
      by simp [allNorms, List.map_append, List.append_assoc]⟩
  · exact ⟨(e.organizations ++ e.people ++ e.dates ++ e.money ++ e.locations).map normalize,
      [],
      by simp [allNorms, addToCat, List.map_append, List.append_assoc],
      by simp [allNorms, List.map_append, List.append_assoc]⟩

/-- One extractor step preserves the extractor invariant. -/
theorem addEntity_inv (cap : ℕ) (et : String × Category)
    {st : List String × Entities} (h : seenInv st) :
    seenInv (addEntity cap st et) := by
  unfold addEntity
  by_cases h1 : normalize et.1 ∈ st.1
  · rw [if_pos h1]
    exact h
  · rw [if_neg h1]
    by_cases h2 : cap ≤ (catList st.2 et.2).length
    · rw [if_pos h2]
      exact h
    · rw [if_neg h2]
      obtain ⟨hnd, hsub⟩ := h
      have hnotin : normalize et.1 ∉ allNorms st.2 := fun hx => h1 (hsub _ hx)
      obtain ⟨l₁, l₂, hnew, hold⟩ := allNorms_addToCat st.2 et.2 et.1
      constructor
      · show (allNorms (addToCat st.2 et.2 et.1)).Nodup
        rw [hnew]
        refine nodup_insert_mid ?_ ?_
        · rw [← hold]; exact hnd
        · rw [← hold]; exact hnotin
      · intro x hx
        rw [show (normalize et.1 :: st.1, addToCat st.2 et.2 et.1).2 =
              addToCat st.2 et.2 et.1 from rfl, hnew] at hx
        have hsplit : x = normalize et.1 ∨ x ∈ l₁ ++ l₂ := by
          rcases List.mem_append.1 hx with hx1 | hx1
          · exact Or.inr (List.mem_append.2 (Or.inl hx1))
          · rcases List.mem_cons.1 hx1 with hx2 | hx2
            · exact Or.inl hx2
            · exact Or.inr (List.mem_append.2 (Or.inr hx2))
        rcases hsplit with hx1 | hx1
        · exact List.mem_cons.2 (Or.inl hx1)
        · exact List.mem_cons.2 (Or.inr (hsub x (by rw [hold]; exact hx1)))

/-- The extractor invariant holds along the whole fold. -/
theorem foldl_addEntity_inv (cap : ℕ) :
    ∀ (raw : List (String × Category)) (st : List String × Entities),
      seenInv st → seenInv (raw.foldl (addEntity cap) st)
  | [], _, h => h
  | et :: raw, st, h =>
      foldl_addEntity_inv cap raw (addEntity cap st et) (addEntity_inv cap et h)

/-- The flattened normalized category lists agree with the concatenated
normalized output. -/
theorem flatten_normalizedCats (e : Entities) :
    (normalizedCats e).flatten = allNorms e := by
  simp [normalizedCats, allNorms, List.map_append, List.append_assoc]

/-- C7: the entity category lists of a run are pairwise non-overlapping in
normalized membership, and within each category every normalized text
appears at most once. -/
theorem entity_category_partition (cap : ℕ) (raw : List (String × Category)) :
    (((extractEntities cap raw).organizations.map normalize).Nodup
      ∧ ((extractEntities cap raw).people.map normalize).Nodup
      ∧ ((extractEntities cap raw).dates.map normalize).Nodup
      ∧ ((extractEntities cap raw).money.map normalize).Nodup
      ∧ ((extractEntities cap raw).locations.map normalize).Nodup)
    ∧ (normalizedCats (extractEntities cap raw)).Pairwise List.Disjoint := by
  have h0 : seenInv ([], emptyEntities) := by
    constructor
    · simp [allNorms, emptyEntities]
    · intro x hx
      simp [allNorms, emptyEntities] at hx
  have h := foldl_addEntity_inv cap raw ([], emptyEntities) h0
  have hnd : ((normalizedCats (extractEntities cap raw)).flatten).Nodup := by
    rw [flatten_normalizedCats]
    exact h.1
  have hsplit := List.nodup_flatten.1 hnd
  refine ⟨⟨?_, ?_, ?_, ?_, ?_⟩, hsplit.2⟩ <;>
    exact hsplit.1 _ (by simp [normalizedCats])

end LDA

namespace LDA

/-- Appending anything to a non-empty string stays non-empty. -/
theorem append_ne_empty_left {s : String} (t : String) (h : s ≠ "") :
    s ++ t ≠ "" := by
  intro he
  obtain ⟨a⟩ := s
  obtain ⟨b⟩ := t
  have hd : a ++ b = [] := congrArg String.data he
  have ha : a = [] := (List.append_eq_nil.1 hd).1
  exact h (by simp [ha])

/-- Joining a non-empty list of non-empty strings is non-empty. -/
theorem joinWith_ne_empty :
    ∀ l : List String, l ≠ [] → (∀ x ∈ l, x ≠ "") → joinWith " " l ≠ ""
  | [], h, _ => absurd rfl h
  | [s], _, hall => by
      simpa [joinWith] using hall s (by simp)
  | s :: t :: rest, _, hall => by
      simp only [joinWith]
      exact append_ne_empty_left _ (append_ne_empty_left _ (hall s (by simp)))

/-- Every sentence produced by the preprocessor is non-empty. -/
theorem sentencesOf_mem_ne_empty {s x : String} (hx : x ∈ sentencesOf s) :
    x ≠ "" := by
  unfold sentencesOf at hx
  have h := (List.mem_filter.1 hx).2
  simpa using h

/-- The extractive fallback is non-empty on a non-empty list of non-empty
sentences. -/
theorem extractive_ne_empty {ss : List String} (hne : ss ≠ [])
    (hall : ∀ x ∈ ss, x ≠ "") : extractive ss ≠ "" := by
  unfold extractive
  apply joinWith_ne_empty
  · have hperm := List.perm_insertionSort
      (fun a b => salience ss b ≤ salience ss a) ss
    cases hs : ss.insertionSort (fun a b => salience ss b ≤ salience ss a) with
    | nil =>
      rw [hs] at hperm
      exact absurd hperm.symm.eq_nil hne
    | cons a tail =>
      have ha_top : a ∈ topRanked ss := by
        unfold topRanked
        rw [hs, List.take_succ_cons]
        exact List.mem_cons_self a _
      have ha_ss : a ∈ ss := by
        refine hperm.subset ?_
        rw [hs]
        exact List.mem_cons_self a tail
      exact List.ne_nil_of_mem
        (List.mem_filter.2 ⟨ha_ss, decide_eq_true ha_top⟩)
  · intro x hx
    exact hall x (List.mem_of_mem_filter hx)

/-- C8: for every non-trivial input the summarizer returns a non-empty
summary, even when the generative backend is unavailable or times out (the
extractive fallback is used and the run completes); empty input yields an
empty summary and no error. -/
theorem summarizer_degradation (backend : Option (String → String))
    (text : String) (h1 : sentencesOf text ≠ [])
    (h2 : ∀ gen, backend = some gen → gen text ≠ "") :
    summarize backend text ≠ "" ∧ summarize backend "" = "" := by
  constructor
  · cases hs : sentencesOf text with
    | nil => exact absurd hs h1
    | cons a tail =>
      cases backend with
      | some gen =>
        have hg := h2 gen rfl
        simpa [summarize, hs] using hg
      | none =>
        have hx : extractive (a :: tail) ≠ "" := by
          refine extractive_ne_empty (List.cons_ne_nil a tail) ?_
          intro x hxm
          refine sentencesOf_mem_ne_empty (s := text) ?_
          rw [hs]
          exact hxm
        simpa [summarize, hs] using hx
  · have h0 : sentencesOf "" = [] := by decide
    simp [summarize, h0]

/-- Witness for C8: a concrete non-trivial text with the generative backend
forced unavailable still yields a non-empty summary, and empty input yields
the empty summary. -/
theorem summarizer_degradation_check :
    sentencesOf demoText ≠ []
    ∧ summarize none demoText ≠ ""
    ∧ summarize none "" = "" := by
  have h := summarizer_degradation none demoText (by decide)
    (fun gen hg => by cases hg)
  exact ⟨by decide, h.1, h.2⟩

end LDA
